import Mathlib

/-!
Verification of the `vivoe-media-framework` RTP raw-video streaming engine.

The data model and constants are embedded from `src/rtp_stream.h`.  The
repository's implementation file (`rtp_stream.cc`) is not present under
`src/`; operations whose bodies live there (`Transmit`, `Receive`, `Open`,
`Close`, `UpdateHeader`, the pixel converters) are modelled from the spec,
each such definition saying so in its doc comment.
-/

set_option maxRecDepth 8000

namespace RtpStreamModel

/-! ## Constants, embedded from `src/rtp_stream.h` -/

/-- `#define RTP_VERSION 0x2` — RFC 1889 Version 2. -/
def RTP_VERSION : Nat := 0x2

/-- `#define RTP_PADDING 0x0`. -/
def RTP_PADDING : Nat := 0x0

/-- `#define RTP_EXTENSION 0x0`. -/
def RTP_EXTENSION : Nat := 0x0

/-- `#define RTP_MARKER 0x0`. -/
def RTP_MARKER : Nat := 0x0

/-- `#define RTP_PAYLOAD_TYPE 0x60` — 96 Dynamic Type. -/
def RTP_PAYLOAD_TYPE : Nat := 0x60

/-- `#define RTP_SOURCE 0x12345678`. -/
def RTP_SOURCE : Nat := 0x12345678

/-- `#define Hz90 90000`. -/
def Hz90 : Nat := 90000

/-- `#define NUM_LINES_PER_PACKET 10`. -/
def NUM_LINES_PER_PACKET : Nat := 10

/-- `#define MAX_BUFSIZE 1280 * 3` — allow for RGB data upto 1280 pixels wide. -/
def MAX_BUFSIZE : Nat := 1280 * 3

/-- `#define MAX_UDP_DATA 1500`. -/
def MAX_UDP_DATA : Nat := 1500

/-! ## Byte-order utilities, embedded from the swap macros in `src/rtp_stream.h`

`__bswap_constant_16(x) = (((x) >> 8) & 0xff) | (((x) & 0xff) << 8)` and
`__bswap_constant_32(x)` with the four byte masks.  Machine words are `Nat`
with explicit `% 2 ^ w`; each mask-and-shift is written in `/`, `%`, `*`
arithmetic, exact for the masked contiguous byte ranges. -/

/-- `__bswap_constant_16`: `((x >> 8) & 0xff) | ((x & 0xff) << 8)`. -/
def bswap16 (x : Nat) : Nat :=
  (x / 256 % 256) + (x % 256) * 256

/-- `__bswap_constant_32`: `((x & 0xff000000) >> 24) | ((x & 0x00ff0000) >> 8)
`    `| ((x & 0x0000ff00) << 8) | ((x & 0x000000ff) << 24)`. -/
def bswap32 (x : Nat) : Nat :=
  (x / 2 ^ 24 % 256) + (x / 2 ^ 16 % 256) * 256 + (x / 256 % 256) * 2 ^ 16 + (x % 256) * 2 ^ 24

/-- Little-endian in-memory byte image of a 16-bit value (least byte first). -/
def leBytes16 (x : Nat) : List Nat := [x % 256, x / 256 % 256]

/-- Big-endian (network order) byte image of a 16-bit value. -/
def beBytes16 (x : Nat) : List Nat := [x / 256 % 256, x % 256]

/-- Little-endian in-memory byte image of a 32-bit value. -/
def leBytes32 (x : Nat) : List Nat :=
  [x % 256, x / 256 % 256, x / 2 ^ 16 % 256, x / 2 ^ 24 % 256]

/-- Big-endian (network order) byte image of a 32-bit value. -/
def beBytes32 (x : Nat) : List Nat :=
  [x / 2 ^ 24 % 256, x / 2 ^ 16 % 256, x / 256 % 256, x % 256]

/-! ## Packed struct layout, embedded from the `#pragma pack(1)` block

Each member is a `(size, align)` pair; the free-standing
`__attribute__((aligned(...)))` lines are empty declarations and contribute
no member.  The layout algorithm is the C one: each field is placed at the
current offset rounded up to `min(align, pack)`, and the struct size is the
end offset rounded up to the struct alignment (which under `pack(1)` is 1). -/

/-- Round `off` up to a multiple of `a`. -/
def alignUp (off a : Nat) : Nat :=
  if a = 0 then off else ((off + a - 1) / a) * a

/-- Field offsets of a struct whose members have the given `(size, align)`
pairs, under `#pragma pack(pack)`: each field's effective alignment is
`min(align, pack)`. -/
def fieldOffsets (pack : Nat) : List (Nat × Nat) → Nat → List Nat
  | [], _ => []
  | (sz, al) :: rest, off =>
      let o := alignUp off (min al pack)
      o :: fieldOffsets pack rest (o + sz)

/-- End offset (before final struct-alignment rounding) of the member list. -/
def structEnd (pack : Nat) : List (Nat × Nat) → Nat → Nat
  | [], off => off
  | (sz, al) :: rest, off =>
      let o := alignUp off (min al pack)
      structEnd pack rest (o + sz)

/-- `sizeof` of a packed struct: end offset rounded to the packed struct
alignment, i.e. `min(max member align, pack)`. -/
def structSize (pack : Nat) (fields : List (Nat × Nat)) : Nat :=
  alignUp (structEnd pack fields 0) (min ((fields.map Prod.snd).foldr max 1) pack)

/-- `RtpHeader`: three `int32_t : 32` bitfields (protocol, timestamp, source),
each occupying a full 4-byte `int32_t` unit. -/
def RtpHeader_fields : List (Nat × Nat) := [(4, 4), (4, 4), (4, 4)]

/-- `LineHeader`: `int16_t length; int16_t line_number; int16_t offset;` —
the interleaved free-standing `__attribute__((aligned(16)))` empty
declarations add no members. -/
def LineHeader_fields : List (Nat × Nat) := [(2, 2), (2, 2), (2, 2)]

/-- `sizeof(LineHeader)` under `#pragma pack(1)`. -/
def sizeof_LineHeader : Nat := structSize 1 LineHeader_fields

/-- `sizeof(RtpHeader)` under `#pragma pack(1)`. -/
def sizeof_RtpHeader : Nat := structSize 1 RtpHeader_fields

/-- `PayloadHeader`: `int16_t extended_sequence_number;` then
`LineHeader line[NUM_LINES_PER_PACKET]`, the array flattened to its
`NUM_LINES_PER_PACKET` elements of size `sizeof(LineHeader)`. -/
def PayloadHeader_fields : List (Nat × Nat) :=
  (2, 2) :: List.replicate NUM_LINES_PER_PACKET (sizeof_LineHeader, 2)

/-- `sizeof(PayloadHeader)` under `#pragma pack(1)`. -/
def sizeof_PayloadHeader : Nat := structSize 1 PayloadHeader_fields

/-- `Header`: `RtpHeader rtp; PayloadHeader payload;` as nested packed
structs. -/
def Header_fields : List (Nat × Nat) :=
  [(sizeof_RtpHeader, 4), (sizeof_PayloadHeader, 2)]

/-- `sizeof(Header)` under `#pragma pack(1)`. -/
def sizeof_Header : Nat := structSize 1 Header_fields

/-- `RtpPacket`: `Header head; char data[MAX_BUFSIZE];`. -/
def RtpPacket_fields : List (Nat × Nat) :=
  [(sizeof_Header, 4), (MAX_BUFSIZE, 1)]

/-- `sizeof(RtpPacket)` under `#pragma pack(1)`. -/
def sizeof_RtpPacket : Nat := structSize 1 RtpPacket_fields

/-- Byte offset of `Header.payload`, hence of `extended_sequence_number`,
inside `Header`. -/
def offset_extended_sequence_number : Nat :=
  (fieldOffsets 1 Header_fields 0).getD 1 0

/-- Byte offset of line header `i` inside `Header`: the payload starts after
the RTP header and the 2-byte extended sequence number. -/
def offset_line_header (i : Nat) : Nat :=
  (fieldOffsets 1 PayloadHeader_fields sizeof_RtpHeader).getD (1 + i) 0

/-- Byte offset of `RtpPacket.data`. -/
def offset_data : Nat := (fieldOffsets 1 RtpPacket_fields 0).getD 1 0

/-! ## Packets and frame fragmentation

`RtpStream::Transmit` and `RtpStream::UpdateHeader` are declared in
`src/rtp_stream.h` but their bodies live in `rtp_stream.cc`, which is not
under `src/`; the fragmentation below is modelled from the spec (§3, §4.1,
§4.3): a frame of `height` scan lines is cut into `ceil(height /
lines_per_packet)` packets, packet `i` carrying lines `i*L .. i*L+L-1`,
each line addressed by a line header `(length, line_number, offset)` with
`offset = 0` for whole lines; the sequence counter is incremented once per
packet, the wire sequence field is the counter modulo `2^16`; `last` marks
the final packet of the frame with the RTP marker bit. -/

/-- One line header plus the line's pixel bytes, per the `LineHeader` struct
of `src/rtp_stream.h` (length, line number, horizontal offset). -/
structure LineFragment where
  length : Nat
  line_number : Nat
  offset : Nat
  bytes : List Nat
  deriving Repr, DecidableEq

/-- One RTP raw-video packet, per the `Header` struct of `src/rtp_stream.h`:
the RTP header fields packed in the `protocol` word (marker, wire sequence
number), timestamp, source, then the payload header (extended sequence
number and line fragments). -/
structure Packet where
  marker : Bool
  sequence_number : Nat
  extended_sequence_number : Nat
  timestamp : Nat
  source : Nat
  fragments : List LineFragment
  deriving Repr, DecidableEq

/-- Split a list into consecutive chunks of `L` elements (last chunk may be
short); fuel-driven so the kernel can evaluate it.  The fuel is always
instantiated with the list length, which each step strictly decreases. -/
def chunksOfAux (L : Nat) : Nat → List α → List (List α)
  | _, [] => []
  | 0, xs => [xs]
  | fuel + 1, x :: xs => (x :: xs.take (L - 1)) :: chunksOfAux L fuel (xs.drop (L - 1))

/-- Split a list into consecutive chunks of `L` elements. -/
def chunksOf (L : Nat) (xs : List α) : List (List α) :=
  chunksOfAux L xs.length xs

/-- Build the line fragment for enumerated scan line `(j, bytes)`:
whole lines are sent, so `offset = 0` and `length` is the line's byte
count. -/
def mkFragment (jl : Nat × List Nat) : LineFragment :=
  { length := jl.2.length, line_number := jl.1, offset := 0, bytes := jl.2 }

/-- Modelled from the spec: `RtpStream::Transmit` fragments one frame (a
list of scan lines) into packets.  Packet `i` of the frame gets sequence
number `seq0 + i` (wire field modulo `2 ^ 16`), timestamp `ts`, source
`src`, and the marker bit exactly on the final packet of the frame
(`UpdateHeader`'s `last` argument). -/
def transmitFrame (L seq0 ts src : Nat) (frame : List (List Nat)) : List Packet :=
  let chs := chunksOf L frame.enum
  chs.enum.map fun ich =>
    { marker := decide (ich.1 = chs.length - 1)
      sequence_number := (seq0 + ich.1) % 2 ^ 16
      extended_sequence_number := seq0 + ich.1
      timestamp := ts
      source := src
      fragments := ich.2.map mkFragment }

/-- Number of packets `transmitFrame` produces for a frame of `h` lines:
`ceil(h / L)` written with natural division. -/
def numPackets (L h : Nat) : Nat := (h + L - 1) / L

/-- Modelled from the spec: `N` successive successful `Transmit` calls.
Each call advances the sequence counter by its packet count and the
timestamp by one frame interval of the 90 kHz clock. -/
def transmitCalls (L : Nat) : Nat → Nat → Nat → List (List (List Nat)) → List Packet
  | _, _, _, [] => []
  | seq0, ts, src, f :: fs =>
      transmitFrame L seq0 ts src f ++
        transmitCalls L (seq0 + (chunksOf L f.enum).length) (ts + Hz90 / 25) src fs

/-! ## Receive-side reassembly

`RtpStream::Receive` is likewise only declared under `src/`; the reassembly
below is modelled from the spec (§4.4): each received packet's line
fragments are written into the frame buffer at their addressed line, the
marker bit completes the frame and delivers it, a timeout returns control
to the caller leaving the partially filled buffer untouched. -/

/-- Write one line fragment into the frame buffer at its addressed line. -/
def writeFragment (buf : List (List Nat)) (f : LineFragment) : List (List Nat) :=
  buf.set f.line_number f.bytes

/-- Write all of one packet's line fragments into the frame buffer. -/
def receivePacket (buf : List (List Nat)) (p : Packet) : List (List Nat) :=
  p.fragments.foldl writeFragment buf

/-- Receive-side state: the frame buffer being accumulated and the frames
delivered to the caller so far. -/
structure RxState where
  buffer : List (List Nat)
  delivered : List (List (List Nat))
  deriving Repr, DecidableEq

/-- Fresh receive state for a stream of `h`-line frames. -/
def initRx (h : Nat) : RxState :=
  { buffer := List.replicate h [], delivered := [] }

/-- One observable event on a `Receive` call: a packet arrives, or the
caller-supplied timeout expires first. -/
inductive RxEvent where
  | pkt (p : Packet)
  | timeout
  deriving Repr, DecidableEq

/-- Modelled from the spec: one `Receive` step.  A timeout returns control
to the caller (`false`) with the frame buffer untouched; a packet's
fragments are written into the buffer, and the marker bit completes the
frame, delivering it and resetting the buffer for the next frame. -/
def receiveStep (h : Nat) (st : RxState) : RxEvent → RxState × Bool
  | .timeout => (st, false)
  | .pkt p =>
      let buf := receivePacket st.buffer p
      if p.marker then
        ({ buffer := List.replicate h [], delivered := st.delivered ++ [buf] }, true)
      else
        ({ st with buffer := buf }, false)

/-- Repeated `Receive` calls over a sequence of events. -/
def receiveLoop (h : Nat) (st : RxState) : List RxEvent → RxState
  | [] => st
  | ev :: evs => receiveLoop h (receiveStep h st ev).1 evs

/-! ## Lemmas about chunking -/

theorem flatten_chunksOfAux (L : Nat) (fuel : Nat) :
    ∀ (xs : List α), (chunksOfAux L fuel xs).flatten = xs := by
  induction fuel with
  | zero => intro xs; cases xs <;> simp [chunksOfAux]
  | succ n ih =>
    intro xs
    cases xs with
    | nil => simp [chunksOfAux]
    | cons x xs => simp [chunksOfAux, ih]

theorem flatten_chunksOf (L : Nat) (xs : List α) : (chunksOf L xs).flatten = xs :=
  flatten_chunksOfAux L xs.length xs

theorem length_chunksOfAux (L : Nat) (hL : 1 ≤ L) (fuel : Nat) :
    ∀ (xs : List α), xs.length ≤ fuel →
      (chunksOfAux L fuel xs).length = (xs.length + L - 1) / L := by
  induction fuel with
  | zero =>
    intro xs hx
    have hnil : xs = [] := List.eq_nil_of_length_eq_zero (Nat.le_zero.mp hx)
    subst hnil
    simp [chunksOfAux, Nat.div_eq_of_lt (by omega : L - 1 < L)]
  | succ n ih =>
    intro xs hx
    cases xs with
    | nil => simp [chunksOfAux, Nat.div_eq_of_lt (by omega : L - 1 < L)]
    | cons x xs =>
      simp only [chunksOfAux, List.length_cons]
      rw [ih _ (by simp only [List.length_drop]; simp at hx; omega), List.length_drop]
      rcases le_or_lt (L - 1) xs.length with hn | hn
      · have h1 : xs.length - (L - 1) + L - 1 = xs.length := by omega
        have h2 : xs.length + 1 + L - 1 = xs.length + L := by omega
        rw [h1, h2, Nat.add_div_right _ (by omega)]
      · have h1 : xs.length - (L - 1) = 0 := by omega
        rw [h1, Nat.div_eq_of_lt (by omega : 0 + L - 1 < L),
          Nat.div_eq_of_lt_le (by omega : 1 * L ≤ xs.length + 1 + L - 1)
            (by omega : xs.length + 1 + L - 1 < (1 + 1) * L)]

theorem length_chunksOf (L : Nat) (hL : 1 ≤ L) (xs : List α) :
    (chunksOf L xs).length = (xs.length + L - 1) / L :=
  length_chunksOfAux L hL xs.length xs (Nat.le_refl _)

theorem chunksOfAux_fuel_stable (L : Nat) (f1 : Nat) :
    ∀ (f2 : Nat) (xs : List α), xs.length ≤ f1 → xs.length ≤ f2 →
      chunksOfAux L f1 xs = chunksOfAux L f2 xs := by
  induction f1 with
  | zero =>
    intro f2 xs h1 _
    have hnil : xs = [] := List.eq_nil_of_length_eq_zero (Nat.le_zero.mp h1)
    subst hnil
    cases f2 <;> simp [chunksOfAux]
  | succ n ih =>
    intro f2 xs h1 h2
    cases xs with
    | nil => cases f2 <;> simp [chunksOfAux]
    | cons x xs =>
      cases f2 with
      | zero => simp at h2
      | succ m =>
        simp only [chunksOfAux, List.cons.injEq, true_and]
        exact ih m _ (by simp only [List.length_drop]; simp at h1; omega)
          (by simp only [List.length_drop]; simp at h2; omega)

theorem chunksOf_flatten_of_uniform (L : Nat) (hL : 1 ≤ L) (blocks : List (List α))
    (hb : ∀ b ∈ blocks, b.length = L) : chunksOf L blocks.flatten = blocks := by
  induction blocks with
  | nil => simp [chunksOf, chunksOfAux]
  | cons b bs ih =>
    have hbL : b.length = L := hb b (by simp)
    cases b with
    | nil => exfalso; simp at hbL; omega
    | cons a b' =>
      have hb' : b'.length = L - 1 := by simp at hbL; omega
      simp only [List.flatten_cons, List.cons_append, chunksOf, List.length_cons,
        chunksOfAux, List.append_eq, List.take_left' hb', List.drop_left' hb',
        List.cons.injEq, true_and]
      rw [chunksOfAux_fuel_stable L (b' ++ bs.flatten).length bs.flatten.length bs.flatten
        (by simp) (Nat.le_refl _)]
      exact ih (fun x hx => hb x (by simp [hx]))

/-! ## Lemmas about reassembly -/

theorem take_succ_set (buf : List α) (a : α) :
    ∀ (k : Nat), k < buf.length → (buf.set k a).take (k + 1) = buf.take k ++ [a] := by
  induction buf with
  | nil => intro k hk; simp at hk
  | cons b bs ih =>
    intro k hk
    cases k with
    | zero => simp
    | succ k => simp [ih k (by simpa using hk)]

theorem foldl_set_enumFrom (frame : List (List Nat)) :
    ∀ (buf : List (List Nat)) (k : Nat), buf.length = k + frame.length →
      (frame.enumFrom k).foldl (fun b jl => b.set jl.1 jl.2) buf = buf.take k ++ frame := by
  induction frame with
  | nil =>
    intro buf k h
    have h' : buf.length ≤ k := by simp at h ⊢; omega
    simp only [List.enumFrom, List.foldl_nil, List.append_nil]
    exact (List.take_of_length_le h').symm
  | cons l ls ih =>
    intro buf k h
    have h' : buf.length = k + ls.length + 1 := by simp at h ⊢; omega
    simp only [List.enumFrom, List.foldl_cons]
    rw [ih (buf.set k l) (k + 1) (by simp [h']; omega),
      take_succ_set buf l k (by omega)]
    simp

theorem foldl_set_enum (frame : List (List Nat)) :
    frame.enum.foldl (fun b jl => b.set jl.1 jl.2) (List.replicate frame.length []) = frame := by
  have h := foldl_set_enumFrom frame (List.replicate frame.length []) 0 (by simp)
  simpa [List.enum] using h

/-! ## Lemmas about `transmitFrame` -/

theorem length_transmitFrame (L seq0 ts src : Nat) (frame : List (List Nat)) :
    (transmitFrame L seq0 ts src frame).length = (chunksOf L frame.enum).length := by
  simp [transmitFrame]

theorem length_transmitFrame_eq (L : Nat) (hL : 1 ≤ L) (seq0 ts src : Nat)
    (frame : List (List Nat)) :
    (transmitFrame L seq0 ts src frame).length = numPackets L frame.length := by
  rw [length_transmitFrame, length_chunksOf L hL, List.enum_length, numPackets]

theorem marker_transmitFrame (L seq0 ts src : Nat) (frame : List (List Nat)) (i : Nat)
    (hi : i < (transmitFrame L seq0 ts src frame).length) :
    ((transmitFrame L seq0 ts src frame)[i]).marker =
      decide (i = (transmitFrame L seq0 ts src frame).length - 1) := by
  simp only [transmitFrame, List.getElem_map, List.getElem_enum, List.length_map,
    List.enum_length]

theorem seq_transmitFrame (L seq0 ts src : Nat) (frame : List (List Nat)) (i : Nat)
    (hi : i < (transmitFrame L seq0 ts src frame).length) :
    ((transmitFrame L seq0 ts src frame)[i]).sequence_number = (seq0 + i) % 2 ^ 16 ∧
      ((transmitFrame L seq0 ts src frame)[i]).extended_sequence_number = seq0 + i := by
  exact ⟨by simp [transmitFrame], by simp [transmitFrame]⟩

theorem map_extended_transmitFrame (L seq0 ts src : Nat) (frame : List (List Nat)) :
    (transmitFrame L seq0 ts src frame).map Packet.extended_sequence_number =
      List.range' seq0 ((chunksOf L frame.enum).length) := by
  simp only [transmitFrame, List.map_map]
  have h1 : (Packet.extended_sequence_number ∘ fun ich : Nat × List (Nat × List Nat) =>
      ({ marker := decide (ich.1 = (chunksOf L frame.enum).length - 1)
         sequence_number := (seq0 + ich.1) % 2 ^ 16
         extended_sequence_number := seq0 + ich.1
         timestamp := ts
         source := src
         fragments := ich.2.map mkFragment } : Packet)) =
      (fun n => seq0 + n) ∘ Prod.fst := rfl
  rw [h1, ← List.map_map, List.enum_map_fst, ← List.range'_eq_map_range]

theorem map_seq_transmitFrame (L seq0 ts src : Nat) (frame : List (List Nat)) :
    (transmitFrame L seq0 ts src frame).map Packet.sequence_number =
      (List.range' seq0 ((chunksOf L frame.enum).length)).map (· % 2 ^ 16) := by
  have h1 : (transmitFrame L seq0 ts src frame).map Packet.sequence_number =
      ((transmitFrame L seq0 ts src frame).map Packet.extended_sequence_number).map
        (· % 2 ^ 16) := by
    simp only [transmitFrame, List.map_map]
    rfl
  rw [h1, map_extended_transmitFrame]

theorem fragments_transmitFrame (L seq0 ts src : Nat) (frame : List (List Nat)) :
    (transmitFrame L seq0 ts src frame).map Packet.fragments =
      (chunksOf L frame.enum).map (List.map mkFragment) := by
  simp only [transmitFrame, List.map_map]
  have h1 : (Packet.fragments ∘ fun ich : Nat × List (Nat × List Nat) =>
      ({ marker := decide (ich.1 = (chunksOf L frame.enum).length - 1)
         sequence_number := (seq0 + ich.1) % 2 ^ 16
         extended_sequence_number := seq0 + ich.1
         timestamp := ts
         source := src
         fragments := ich.2.map mkFragment } : Packet)) =
      List.map mkFragment ∘ Prod.snd := rfl
  rw [h1, ← List.map_map, List.enum_map_snd]

/-- Reassembling every packet of one transmitted frame, in order, into a
fresh frame buffer reproduces the frame. -/
theorem foldl_receive_transmitFrame (L seq0 ts src h : Nat) (frame : List (List Nat))
    (hf : frame.length = h) :
    (transmitFrame L seq0 ts src frame).foldl receivePacket (List.replicate h []) = frame := by
  have h1 : ∀ (init : List (List Nat)),
      (transmitFrame L seq0 ts src frame).foldl receivePacket init =
        ((transmitFrame L seq0 ts src frame).map Packet.fragments).flatten.foldl
          writeFragment init := by
    intro init
    rw [List.foldl_flatten, List.foldl_map]
    rfl
  rw [h1, fragments_transmitFrame, ← List.map_flatten, flatten_chunksOf, List.foldl_map]
  have h2 : (fun (b : List (List Nat)) (jl : Nat × List Nat) => writeFragment b (mkFragment jl)) =
      fun b jl => b.set jl.1 jl.2 := rfl
  rw [h2, ← hf]
  exact foldl_set_enum frame

/-! ## Lemmas about `receiveLoop` -/

theorem receiveLoop_append (h : Nat) (st : RxState) (a b : List RxEvent) :
    receiveLoop h st (a ++ b) = receiveLoop h (receiveLoop h st a) b := by
  induction a generalizing st with
  | nil => rfl
  | cons e es ih => simp only [List.cons_append, receiveLoop]; exact ih _

theorem receiveLoop_no_marker (h : Nat) (ps : List Packet) :
    ∀ (st : RxState), (∀ p ∈ ps, p.marker = false) →
      receiveLoop h st (ps.map RxEvent.pkt) =
        { buffer := ps.foldl receivePacket st.buffer, delivered := st.delivered } := by
  induction ps with
  | nil => intro st _; rfl
  | cons p ps ih =>
    intro st hm
    simp only [List.map_cons, receiveLoop, receiveStep, hm p (List.mem_cons_self p ps),
      Bool.false_eq_true, if_false, List.foldl_cons]
    exact ih _ (fun q hq => hm q (List.mem_cons_of_mem p hq))

/-! ## Claims C1, C2, C8 -/

/-- C1: for every valid frame height, width and lines-per-packet setting,
fragmenting a frame via `Transmit` into packets and then reassembling all
of those packets (none lost, in order) via `Receive` delivers a pixel
buffer byte-for-byte equal to the original frame. -/
theorem claim_C1 (L h w seq0 ts src : Nat) (hL : 1 ≤ L) (hh : 1 ≤ h) (hw : w ≤ 1280)
    (frame : List (List Nat)) (hf : frame.length = h)
    (hlines : ∀ line ∈ frame, line.length = 3 * w) :
    (receiveLoop h (initRx h)
        ((transmitFrame L seq0 ts src frame).map RxEvent.pkt)).delivered = [frame] := by
  have hlen : (transmitFrame L seq0 ts src frame).length = numPackets L h := by
    rw [length_transmitFrame_eq L hL, hf]
  have hn1 : 1 ≤ numPackets L h := by
    rw [numPackets, Nat.le_div_iff_mul_le (by omega)]; omega
  have hne : transmitFrame L seq0 ts src frame ≠ [] := by
    intro hnil; rw [hnil] at hlen; simp at hlen; omega
  have hsplit := List.dropLast_append_getLast hne
  have hmark : ∀ p ∈ (transmitFrame L seq0 ts src frame).dropLast, p.marker = false := by
    intro p hp
    rw [List.mem_iff_getElem] at hp
    obtain ⟨i, hi, hpe⟩ := hp
    have hi2 : i < (transmitFrame L seq0 ts src frame).length - 1 := by
      simpa [List.length_dropLast] using hi
    have hi' : i < (transmitFrame L seq0 ts src frame).length := by omega
    rw [← hpe, List.getElem_dropLast, marker_transmitFrame L seq0 ts src frame i hi']
    simp only [decide_eq_false_iff_not]
    omega
  have hlast : ((transmitFrame L seq0 ts src frame).getLast hne).marker = true := by
    rw [List.getLast_eq_getElem,
      marker_transmitFrame L seq0 ts src frame _ (by omega)]
    simp
  conv_lhs => rw [← hsplit]
  rw [List.map_append, receiveLoop_append,
    receiveLoop_no_marker h _ _ hmark]
  simp only [List.map_cons, List.map_nil, receiveLoop, receiveStep, hlast, if_pos, initRx,
    List.nil_append]
  have hfold : receivePacket
      ((transmitFrame L seq0 ts src frame).dropLast.foldl receivePacket
        (List.replicate h []))
      ((transmitFrame L seq0 ts src frame).getLast hne) =
      ((transmitFrame L seq0 ts src frame).dropLast ++
        [(transmitFrame L seq0 ts src frame).getLast hne]).foldl receivePacket
        (List.replicate h []) := by
    rw [List.foldl_append]; rfl
  rw [hfold, hsplit, foldl_receive_transmitFrame L seq0 ts src h frame hf]

/-- Witness for C1: a 3-line frame of width 1, 10 lines per packet,
transmitted and reassembled, is delivered byte-for-byte. -/
theorem claim_C1_witness :
    (receiveLoop 3 (initRx 3)
        ((transmitFrame 10 0 0 0 [[1, 2, 3], [4, 5, 6], [7, 8, 9]]).map RxEvent.pkt)).delivered
      = [[[1, 2, 3], [4, 5, 6], [7, 8, 9]]] :=
  claim_C1 10 3 1 0 0 0 (by omega) (by omega) (by omega) _ rfl (by decide)

/-- C2: `Transmit` produces exactly `ceil(height / lines_per_packet)`
packets, and a packet carries the RTP marker bit exactly when it is the
final packet of the frame. -/
theorem claim_C2 (L h seq0 ts src : Nat) (hL : 1 ≤ L) (frame : List (List Nat))
    (hf : frame.length = h) :
    (transmitFrame L seq0 ts src frame).length = (h + L - 1) / L ∧
    ∀ i (hi : i < (transmitFrame L seq0 ts src frame).length),
      (((transmitFrame L seq0 ts src frame)[i]).marker = true ↔
        i = (transmitFrame L seq0 ts src frame).length - 1) := by
  have h1 := length_transmitFrame_eq L hL seq0 ts src frame
  refine ⟨by rw [h1, hf]; rfl, ?_⟩
  intro i hi
  rw [marker_transmitFrame L seq0 ts src frame i hi]
  simp

/-- Witness for C2 at the spec's example scenario: a 480-line frame with 10
lines per packet yields exactly 48 packets; packet 47 (the last) carries
the marker and packet 46 does not. -/
theorem claim_C2_witness :
    (transmitFrame 10 0 0 0 (List.replicate 480 ([] : List Nat))).length = 48 ∧
    ((transmitFrame 10 0 0 0 (List.replicate 480 ([] : List Nat))).map
        Packet.marker).getD 47 false = true ∧
    ((transmitFrame 10 0 0 0 (List.replicate 480 ([] : List Nat))).map
        Packet.marker).getD 46 true = false := by
  have h := claim_C2 10 480 0 0 0 (by omega) (List.replicate 480 []) (by simp)
  have hlen : (transmitFrame 10 0 0 0 (List.replicate 480 ([] : List Nat))).length = 48 := by
    simpa using h.1
  have h47 : (47 : Nat) < (transmitFrame 10 0 0 0 (List.replicate 480 ([] : List Nat))).length := by
    omega
  have h46 : (46 : Nat) < (transmitFrame 10 0 0 0 (List.replicate 480 ([] : List Nat))).length := by
    omega
  have hm47 : ((transmitFrame 10 0 0 0 (List.replicate 480 ([] : List Nat)))[47]).marker = true :=
    (h.2 47 h47).mpr (by omega)
  have hm46 : ((transmitFrame 10 0 0 0 (List.replicate 480 ([] : List Nat)))[46]).marker = false := by
    rcases hb : ((transmitFrame 10 0 0 0 (List.replicate 480 ([] : List Nat)))[46]).marker with _ | _
    · rfl
    · exact absurd ((h.2 46 h46).mp hb) (by omega)
  refine ⟨hlen, ?_, ?_⟩
  · rw [List.getD_eq_getElem?_getD,
      List.getElem?_eq_getElem (by rw [List.length_map, hlen]; omega)]
    rw [Option.getD_some, List.getElem_map]
    exact hm47
  · rw [List.getD_eq_getElem?_getD,
      List.getElem?_eq_getElem (by rw [List.length_map, hlen]; omega)]
    rw [Option.getD_some, List.getElem_map]
    exact hm46

/-- C8: a `Receive` whose timeout expires returns control with the frame
buffer's accumulated fragments unchanged, and later `Receive` calls keep
accumulating into the same frame: a timeout interleaved anywhere in the
event sequence does not change the final receive state. -/
theorem claim_C8 (h : Nat) (st : RxState) (a b : List RxEvent) :
    (receiveStep h st RxEvent.timeout).1 = st ∧
    receiveLoop h st (a ++ RxEvent.timeout :: b) = receiveLoop h st (a ++ b) := by
  refine ⟨rfl, ?_⟩
  rw [receiveLoop_append, receiveLoop_append]
  rfl

/-! ## Claim C4: sequence numbering across successive transmits -/

theorem map_extended_transmitCalls (L h : Nat) (hL : 1 ≤ L)
    (frames : List (List (List Nat))) :
    ∀ (seq0 ts src : Nat), (∀ f ∈ frames, f.length = h) →
      (transmitCalls L seq0 ts src frames).map Packet.extended_sequence_number =
        List.range' seq0 (frames.length * numPackets L h) := by
  induction frames with
  | nil => intro seq0 ts src _; simp [transmitCalls]
  | cons f fs ih =>
    intro seq0 ts src hfr
    have hc : (chunksOf L f.enum).length = numPackets L h := by
      rw [length_chunksOf L hL, List.enum_length, hfr f (by simp)]; rfl
    simp only [transmitCalls, List.map_append]
    rw [map_extended_transmitFrame, ih _ _ _ (fun g hg => hfr g (by simp [hg])), hc]
    have hr := List.range'_append seq0 (numPackets L h) (fs.length * numPackets L h) 1
    simp only [one_mul] at hr
    rw [hr]
    congr 1
    simp only [List.length_cons]
    ring

theorem map_seq_eq_transmitCalls (L : Nat) (frames : List (List (List Nat))) :
    ∀ (seq0 ts src : Nat),
      (transmitCalls L seq0 ts src frames).map Packet.sequence_number =
        ((transmitCalls L seq0 ts src frames).map Packet.extended_sequence_number).map
          (· % 2 ^ 16) := by
  induction frames with
  | nil => intro seq0 ts src; simp [transmitCalls]
  | cons f fs ih =>
    intro seq0 ts src
    simp only [transmitCalls, List.map_append, map_seq_transmitFrame,
      map_extended_transmitFrame, ih]

/-- C4: across `N` successive successful `Transmit` calls each producing
`P` packets, the sequence counter is incremented once per packet: the
extended sequence numbers issued are exactly `seq0, seq0+1, …,
seq0+N*P-1`, strictly increasing; the wire sequence fields are their
reductions modulo `2^16`, and are pairwise distinct whenever `N*P ≤ 2^16`
(distinct modulo wraparound). -/
theorem claim_C4 (L h seq0 ts src : Nat) (hL : 1 ≤ L) (frames : List (List (List Nat)))
    (hfr : ∀ f ∈ frames, f.length = h) :
    (transmitCalls L seq0 ts src frames).map Packet.extended_sequence_number =
      List.range' seq0 (frames.length * numPackets L h) ∧
    ((transmitCalls L seq0 ts src frames).map Packet.extended_sequence_number).Pairwise
      (· < ·) ∧
    (transmitCalls L seq0 ts src frames).map Packet.sequence_number =
      (List.range' seq0 (frames.length * numPackets L h)).map (· % 2 ^ 16) ∧
    (frames.length * numPackets L h ≤ 2 ^ 16 →
      ((transmitCalls L seq0 ts src frames).map Packet.sequence_number).Nodup) := by
  have hext := map_extended_transmitCalls L h hL frames seq0 ts src hfr
  have hseq : (transmitCalls L seq0 ts src frames).map Packet.sequence_number =
      (List.range' seq0 (frames.length * numPackets L h)).map (· % 2 ^ 16) := by
    rw [map_seq_eq_transmitCalls, hext]
  refine ⟨hext, ?_, hseq, ?_⟩
  · rw [hext]; exact List.pairwise_lt_range' seq0 _ 1
  · intro hbound
    rw [hseq, List.Nodup, List.pairwise_map, List.pairwise_iff_getElem]
    intro i j hi hj hij
    rw [List.getElem_range', List.getElem_range']
    rw [List.length_range'] at hi hj
    have h16 : (2 : Nat) ^ 16 = 65536 := by norm_num
    rw [h16]
    rw [h16] at hbound
    omega

/-- Witness for C4: three 20-line frames with 10 lines per packet issue the
six consecutive extended sequence numbers 7..12, with distinct wire
fields. -/
theorem claim_C4_witness :
    (transmitCalls 10 7 0 0 [List.replicate 20 ([] : List Nat), List.replicate 20 [],
        List.replicate 20 []]).map Packet.extended_sequence_number = List.range' 7 6 ∧
    ((transmitCalls 10 7 0 0 [List.replicate 20 ([] : List Nat), List.replicate 20 [],
        List.replicate 20 []]).map Packet.sequence_number).Nodup := by
  have h := claim_C4 10 20 7 0 0 (by omega)
    [List.replicate 20 ([] : List Nat), List.replicate 20 [], List.replicate 20 []]
    (by intro f hf; simp only [List.mem_cons, List.not_mem_nil, or_false] at hf
        rcases hf with rfl | rfl | rfl <;> simp)
  refine ⟨?_, h.2.2.2 (by norm_num [numPackets])⟩
  have h1 := h.1
  norm_num [numPackets] at h1
  exact h1

/-! ## Claim C5: where the sequence counter lives

`src/rtp_stream.h` declares `static unsigned long sequence_number_;` — a
class-level (per-process) member, not an instance member.  The embedding
keeps the single static counter in a process-wide state alongside the
per-instance members of `RtpStream`. -/

/-- Per-instance members of `RtpStream` relevant here (frame geometry and
the `frame_` counter); `sequence_number_` is deliberately absent because
the header declares it `static`. -/
structure RtpStreamInstance where
  height_ : Nat
  width_ : Nat
  frame_ : Nat
  deriving Repr, DecidableEq

/-- Process-wide state: the one `static unsigned long
RtpStream::sequence_number_` shared by every instance, plus the live
instances. -/
structure ProcessState where
  sequence_number_ : Nat
  instances : List RtpStreamInstance
  deriving Repr, DecidableEq

/-- Reading `sequence_number_` through instance `i` resolves, as for any
static member, to the single class-level counter. -/
def readSeq (g : ProcessState) (_i : Nat) : Nat := g.sequence_number_

/-- Modelled from the spec: `Transmit` on instance `i` fragments the frame
starting at the current counter value, advances the counter once per
packet, and bumps instance `i`'s frame counter. -/
def transmitOn (g : ProcessState) (i : Nat) (ts : Nat) (frame : List (List Nat)) :
    ProcessState × List Packet :=
  let packets := transmitFrame NUM_LINES_PER_PACKET g.sequence_number_ ts RTP_SOURCE frame
  ({ sequence_number_ := g.sequence_number_ + packets.length
     instances := g.instances.enum.map fun ji =>
       if ji.1 = i then { ji.2 with frame_ := ji.2.frame_ + 1 } else ji.2 },
   packets)

/-- Counterexample to C5 as stated: with two endpoints `A = 0` and `B = 1`,
transmitting a one-line frame on `A` changes the sequence counter read
through `B`, because the counter is the single `static` member. -/
theorem claim_C5_counterexample :
    readSeq ((transmitOn ⟨0, [⟨480, 480, 0⟩, ⟨480, 480, 0⟩]⟩ 0 0 [[0, 0, 0]]).1) 1 ≠
      readSeq ⟨0, [⟨480, 480, 0⟩, ⟨480, 480, 0⟩]⟩ 1 := by decide

/-- C5 (amended): the sequence counter is class-level `static` state shared
by all `RtpStream` instances, so `Transmit` on endpoint `A` advances the
counter observed through every distinct endpoint `B` by exactly the number
of packets sent. -/
theorem claim_C5 (g : ProcessState) (A B ts : Nat) (hAB : A ≠ B)
    (frame : List (List Nat)) :
    readSeq (transmitOn g A ts frame).1 B =
      readSeq g B + numPackets NUM_LINES_PER_PACKET frame.length := by
  simp only [readSeq, transmitOn]
  rw [length_transmitFrame_eq NUM_LINES_PER_PACKET (by norm_num [NUM_LINES_PER_PACKET])]

/-- Witness for C5 (amended): one `Transmit` of a 15-line frame on endpoint
0 advances the counter read through endpoint 1 by 2 packets. -/
theorem claim_C5_witness :
    readSeq ((transmitOn ⟨5, [⟨480, 480, 0⟩, ⟨480, 480, 0⟩]⟩ 0 0
        (List.replicate 15 [])).1) 1 = 5 + 2 := by
  have h := claim_C5 ⟨5, [⟨480, 480, 0⟩, ⟨480, 480, 0⟩]⟩ 0 1 0 (by omega)
    (List.replicate 15 [])
  rw [h]
  norm_num [readSeq, numPackets, NUM_LINES_PER_PACKET]

/-! ## Claim C6: endpoint lifecycle

`Open`, `Close`, `Transmit` and `Receive` bodies live in `rtp_stream.cc`
(absent from `src/`); the lifecycle below is modelled from the spec: an
endpoint starts unopened, `Open` binds the sockets, `Close` releases them
and is safe to repeat, and `Transmit`/`Receive` fail with `NotOpenError`
unless the endpoint is currently open. -/

/-- The spec's error kinds (§7). -/
inductive StreamError where
  | NotOpenError
  | SocketError
  | ResolutionError
  | TimeoutError
  | MalformedPacketError
  deriving Repr, DecidableEq

/-- Endpoint lifecycle stage. -/
inductive LifeState where
  | created
  | opened
  | closed
  deriving Repr, DecidableEq

/-- An `RtpStream` endpoint: lifecycle stage, frame geometry, sequence
counter. -/
structure Endpoint where
  life : LifeState
  height_ : Nat
  width_ : Nat
  seq : Nat
  deriving Repr, DecidableEq

/-- `RtpStream(height, width)`: a freshly constructed endpoint, sockets not
yet open. -/
def mkRtpStream (h w : Nat) : Endpoint :=
  { life := .created, height_ := h, width_ := w, seq := 0 }

/-- Modelled from the spec: `Open` binds the configured sockets. -/
def openEndpoint (e : Endpoint) : Endpoint := { e with life := .opened }

/-- Modelled from the spec: `Close` releases the socket handles; safe to
call multiple times; afterwards the endpoint is in the terminal closed
state. -/
def closeEndpoint (e : Endpoint) : Endpoint := { e with life := .closed }

/-- Modelled from the spec: `Transmit` fails with `NotOpenError` unless the
endpoint is open; otherwise it fragments the frame, advances the sequence
counter once per packet and reports the packets sent. -/
def endpointTransmit (e : Endpoint) (ts : Nat) (frame : List (List Nat)) :
    Except StreamError (Endpoint × List Packet) :=
  if e.life = .opened then
    let packets := transmitFrame NUM_LINES_PER_PACKET e.seq ts RTP_SOURCE frame
    .ok ({ e with seq := e.seq + packets.length }, packets)
  else
    .error .NotOpenError

/-- Modelled from the spec: `Receive` fails with `NotOpenError` unless the
endpoint is open; otherwise it accumulates the observed events into
frames. -/
def endpointReceive (e : Endpoint) (events : List RxEvent) :
    Except StreamError RxState :=
  if e.life = .opened then
    .ok (receiveLoop e.height_ (initRx e.height_) events)
  else
    .error .NotOpenError

/-- C6: `Receive` before `Open` has succeeded fails with `NotOpenError`;
`Transmit` after `Close` fails with `NotOpenError`; `Close` is idempotent
and leaves the endpoint in a terminal state where both `Transmit` and
`Receive` fail with `NotOpenError`. -/
theorem claim_C6 (h w ts : Nat) (e : Endpoint) (frame : List (List Nat))
    (evs : List RxEvent) :
    endpointReceive (mkRtpStream h w) evs = .error .NotOpenError ∧
    endpointTransmit (closeEndpoint e) ts frame = .error .NotOpenError ∧
    closeEndpoint (closeEndpoint e) = closeEndpoint e ∧
    endpointReceive (closeEndpoint e) evs = .error .NotOpenError := by
  refine ⟨?_, ?_, rfl, ?_⟩ <;>
    simp [endpointReceive, endpointTransmit, mkRtpStream, closeEndpoint]

/-! ## Claim C7: network byte order on the wire

`UpdateHeader`'s body is in the absent `rtp_stream.cc`; the wire encoding
below is modelled from the spec (§3, §4.1, §6) with the constants and swap
macros embedded from `src/rtp_stream.h`: every multi-byte field is
converted host-to-network (an explicit byte swap on little-endian hosts,
the identity on big-endian hosts, the `ENDIAN_SWAP` guard in the source)
and then stored in host order, so that the wire always carries big-endian
bytes. -/

/-- In-memory byte image of a 16-bit value on a host of the given
endianness. -/
def hostBytes16 (littleEndian : Bool) (x : Nat) : List Nat :=
  if littleEndian then leBytes16 x else beBytes16 x

/-- In-memory byte image of a 32-bit value on a host of the given
endianness. -/
def hostBytes32 (littleEndian : Bool) (x : Nat) : List Nat :=
  if littleEndian then leBytes32 x else beBytes32 x

/-- Host-to-network conversion of a 16-bit field: the explicit
`__bswap_constant_16` on little-endian hosts, identity otherwise. -/
def htons (littleEndian : Bool) (x : Nat) : Nat :=
  if littleEndian then bswap16 x else x

/-- Host-to-network conversion of a 32-bit field: the explicit
`__bswap_constant_32` on little-endian hosts, identity otherwise. -/
def htonl (littleEndian : Bool) (x : Nat) : Nat :=
  if littleEndian then bswap32 x else x

/-- The 32-bit `protocol` word of `RtpHeader` (RFC 1889 layout, as in the
wireshark dump quoted in `src/rtp_stream.h`): version, padding, extension,
CSRC count 0, marker, payload type, 16-bit sequence number. -/
def protocolWord (marker : Bool) (seq : Nat) : Nat :=
  RTP_VERSION * 2 ^ 30 + RTP_PADDING * 2 ^ 29 + RTP_EXTENSION * 2 ^ 28 +
    (if marker then 1 else 0) * 2 ^ 23 + RTP_PAYLOAD_TYPE * 2 ^ 16 + seq % 2 ^ 16

/-- Wire image of a packet's 12-byte RTP header on the given host. -/
def wireRtpHeader (littleEndian : Bool) (p : Packet) : List Nat :=
  hostBytes32 littleEndian (htonl littleEndian (protocolWord p.marker p.sequence_number)) ++
    hostBytes32 littleEndian (htonl littleEndian (p.timestamp % 2 ^ 32)) ++
    hostBytes32 littleEndian (htonl littleEndian (p.source % 2 ^ 32))

/-- Wire image of one 6-byte line header. -/
def wireLineHeader (littleEndian : Bool) (f : LineFragment) : List Nat :=
  hostBytes16 littleEndian (htons littleEndian (f.length % 2 ^ 16)) ++
    hostBytes16 littleEndian (htons littleEndian (f.line_number % 2 ^ 16)) ++
    hostBytes16 littleEndian (htons littleEndian (f.offset % 2 ^ 16))

/-- Wire image of a packet's payload header (extended sequence number and
line headers). -/
def wirePayloadHeader (littleEndian : Bool) (p : Packet) : List Nat :=
  hostBytes16 littleEndian (htons littleEndian (p.extended_sequence_number % 2 ^ 16)) ++
    (p.fragments.map (wireLineHeader littleEndian)).flatten

theorem swap16_bytes (p q : Nat) (hp : p < 256) (hq : q < 256) :
    (p + q * 256) % 256 = p ∧ (p + q * 256) / 256 % 256 = q := by omega

theorem swap32_bytes (a b c d : Nat) (ha : a < 256) (hb : b < 256) (hc : c < 256)
    (hd : d < 256) :
    (a + b * 256 + c * 2 ^ 16 + d * 2 ^ 24) % 256 = a ∧
    (a + b * 256 + c * 2 ^ 16 + d * 2 ^ 24) / 256 % 256 = b ∧
    (a + b * 256 + c * 2 ^ 16 + d * 2 ^ 24) / 2 ^ 16 % 256 = c ∧
    (a + b * 256 + c * 2 ^ 16 + d * 2 ^ 24) / 2 ^ 24 % 256 = d := by omega

theorem hostBytes16_htons (le : Bool) (x : Nat) :
    hostBytes16 le (htons le x) = beBytes16 x := by
  cases le
  · rfl
  · have h := swap16_bytes (x / 256 % 256) (x % 256) (Nat.mod_lt _ (by norm_num))
      (Nat.mod_lt _ (by norm_num))
    simp only [hostBytes16, htons, if_pos, leBytes16, beBytes16, bswap16,
      List.cons.injEq, and_true]
    exact h

theorem hostBytes32_htonl (le : Bool) (x : Nat) :
    hostBytes32 le (htonl le x) = beBytes32 x := by
  cases le
  · rfl
  · have h := swap32_bytes (x / 2 ^ 24 % 256) (x / 2 ^ 16 % 256) (x / 256 % 256) (x % 256)
      (Nat.mod_lt _ (by norm_num)) (Nat.mod_lt _ (by norm_num))
      (Nat.mod_lt _ (by norm_num)) (Nat.mod_lt _ (by norm_num))
    simp only [hostBytes32, htonl, if_pos, leBytes32, beBytes32, bswap32,
      List.cons.injEq, and_true]
    exact h

/-- C7: every multi-byte header field of every transmitted packet is
serialized big-endian on the wire regardless of host endianness (on
little-endian hosts via the explicit 16- and 32-bit byte swaps), the
bits of wire byte 0 equal the RTP v2 constant, the payload-type bits of
wire byte 1 equal the raw-video dynamic type 96, and wire bytes 2–3 carry
the packet's 16-bit sequence number big-endian. -/
theorem claim_C7 (le : Bool) (L seq0 ts src : Nat) (frame : List (List Nat)) (p : Packet)
    (hp : p ∈ transmitFrame L seq0 ts src frame) :
    wireRtpHeader le p =
      beBytes32 (protocolWord p.marker p.sequence_number) ++
        beBytes32 (p.timestamp % 2 ^ 32) ++ beBytes32 (p.source % 2 ^ 32) ∧
    wirePayloadHeader le p =
      beBytes16 (p.extended_sequence_number % 2 ^ 16) ++
        (p.fragments.map fun f => beBytes16 (f.length % 2 ^ 16) ++
          beBytes16 (f.line_number % 2 ^ 16) ++ beBytes16 (f.offset % 2 ^ 16)).flatten ∧
    (wireRtpHeader le p).getD 0 0 / 64 = RTP_VERSION ∧
    (wireRtpHeader le p).getD 1 0 % 128 = RTP_PAYLOAD_TYPE ∧
    (wireRtpHeader le p).getD 2 0 * 256 + (wireRtpHeader le p).getD 3 0 =
      p.sequence_number := by
  have hs : p.sequence_number < 2 ^ 16 := by
    rw [List.mem_iff_getElem] at hp
    obtain ⟨i, hi, hpe⟩ := hp
    have := (seq_transmitFrame L seq0 ts src frame i hi).1
    rw [hpe] at this
    rw [this]
    exact Nat.mod_lt _ (by norm_num)
  have hs' : p.sequence_number % 2 ^ 16 = p.sequence_number := Nat.mod_eq_of_lt hs
  refine ⟨?_, ?_, ?_, ?_, ?_⟩
  · simp only [wireRtpHeader, hostBytes32_htonl]
  · simp only [wirePayloadHeader, hostBytes16_htons]
    congr 2
    apply List.map_congr_left
    intro f hf
    simp only [wireLineHeader, hostBytes16_htons]
  all_goals
    simp only [wireRtpHeader, hostBytes32_htonl, beBytes32, protocolWord, RTP_VERSION,
      RTP_PADDING, RTP_EXTENSION, RTP_PAYLOAD_TYPE, hs', List.cons_append, List.nil_append,
      List.getD_cons_zero, List.getD_cons_succ]
    cases p.marker <;> simp only [Bool.false_eq_true, if_true, if_false] <;> omega

/-- Sample packet: the single packet `transmitFrame 10 5 9 7 [[1,2,3]]`
produces. -/
def samplePacket : Packet :=
  { marker := true, sequence_number := 5, extended_sequence_number := 5, timestamp := 9,
    source := 7,
    fragments := [{ length := 3, line_number := 0, offset := 0, bytes := [1, 2, 3] }] }

/-- Witness for C7 on a little-endian host and a concrete transmitted
packet. -/
theorem claim_C7_witness :
    (wireRtpHeader true samplePacket).getD 0 0 / 64 = RTP_VERSION ∧
    (wireRtpHeader true samplePacket).getD 1 0 % 128 = RTP_PAYLOAD_TYPE ∧
    (wireRtpHeader true samplePacket).getD 2 0 * 256 +
      (wireRtpHeader true samplePacket).getD 3 0 = 5 := by
  have h := claim_C7 true 10 5 9 7 [[1, 2, 3]] samplePacket (by decide)
  exact ⟨h.2.2.1, h.2.2.2.1, h.2.2.2.2⟩

/-! ## Claims C9 and C10: packed layout and buffer capacities -/

/-- C9: under `#pragma pack(1)`, `sizeof(RtpHeader) = 12`,
`sizeof(LineHeader) = 6` and `sizeof(Header) = 74`; inside an `RtpPacket`
the extended sequence number sits at byte offset 12, the ten line headers
at offsets 14, 20, …, 68 (ending at byte 73), and the pixel data begins at
byte offset 74 — the free-standing `aligned` attribute declarations
contribute no members and hence no padding. -/
theorem claim_C9 :
    sizeof_RtpHeader = 12 ∧
    sizeof_LineHeader = 6 ∧
    sizeof_Header = 74 ∧
    offset_extended_sequence_number = 12 ∧
    (List.range NUM_LINES_PER_PACKET).map offset_line_header =
      [14, 20, 26, 32, 38, 44, 50, 56, 62, 68] ∧
    offset_line_header 9 + sizeof_LineHeader = 74 ∧
    offset_data = 74 := by
  refine ⟨rfl, rfl, rfl, rfl, ?_, rfl, rfl⟩
  rfl

/-- C10: `MAX_BUFSIZE = 1280 * 3 = 3840` bytes of pixel data per packet, so
one full RGB scan line of any width up to 1280 pixels fits in a single
packet's data array, a width above 1280 exceeds it, and the endpoint's
`udpdata` buffer of `MAX_UDP_DATA = 1500` bytes is strictly smaller than
`sizeof(RtpPacket)`. -/
theorem claim_C10 (w : Nat) :
    MAX_BUFSIZE = 3840 ∧
    (w ≤ 1280 → 3 * w ≤ MAX_BUFSIZE) ∧
    (1280 < w → MAX_BUFSIZE < 3 * w) ∧
    MAX_UDP_DATA < sizeof_RtpPacket := by
  refine ⟨rfl, ?_, ?_, by decide⟩ <;>
    · intro hwb
      simp only [MAX_BUFSIZE]
      omega

/-- Witness for C10 at the boundary widths 1280 and 1281. -/
theorem claim_C10_witness :
    3 * 1280 ≤ MAX_BUFSIZE ∧ MAX_BUFSIZE < 3 * 1281 :=
  ⟨(claim_C10 1280).2.1 (by omega), (claim_C10 1281).2.2.1 (by omega)⟩

/-! ## Claim C3: the pixel converters

`yuvtorgb`, `rgbtoyuv` and `yuvtorgba` are declared in `src/rtp_stream.h`
with bodies in the absent `rtp_stream.cc`; they are modelled from the spec
(§4.2): packed 4:2:2 UYVY wire format (the sampling named in the source's
gstreamer example), standard BT.601 full-range integer coefficients in
8-bit fixed point with round-to-nearest, chroma downsampled by averaging
each horizontal pixel pair, and the standard 0–255 saturation on the
YUV-to-RGB side.  Byte values are `Int`, matching the C `int` arithmetic
with arithmetic-shift (floor) division. -/

/-- The spec's "standard 0–255 saturation". -/
def clamp255 (x : Int) : Int := if x < 0 then 0 else if 255 < x then 255 else x

/-- Integer luma `Y = (77 R + 150 G + 29 B + 128) >> 8` (BT.601 full range,
77 + 150 + 29 = 256). -/
def lumaByte (r g b : Int) : Int := (77 * r + 150 * g + 29 * b + 128) / 256

/-- Integer blue-difference chroma `U` (biased by 128). -/
def chromaU (r g b : Int) : Int := (-43 * r - 85 * g + 128 * b + 128) / 256 + 128

/-- Integer red-difference chroma `V` (biased by 128). -/
def chromaV (r g b : Int) : Int := (128 * r - 107 * g - 21 * b + 128) / 256 + 128

/-- Reconstruct one RGB pixel from its luma and the pair's shared chroma:
`R = Y + 1.402 (V-128)`, `G = Y - 0.344 (U-128) - 0.714 (V-128)`,
`B = Y + 1.772 (U-128)`, in 8-bit fixed point with saturation. -/
def yuvPixel (y u v : Int) : List Int :=
  [clamp255 (y + (359 * (v - 128) + 128) / 256),
   clamp255 (y + (-88 * (u - 128) - 183 * (v - 128) + 128) / 256),
   clamp255 (y + (454 * (u - 128) + 128) / 256)]

/-- One horizontal RGB pixel pair to its packed UYVY quad: two lumas, one
averaged chroma pair. -/
def rgbPairToUyvy : List Int → List Int
  | [r1, g1, b1, r2, g2, b2] =>
      [(chromaU r1 g1 b1 + chromaU r2 g2 b2) / 2,
       lumaByte r1 g1 b1,
       (chromaV r1 g1 b1 + chromaV r2 g2 b2) / 2,
       lumaByte r2 g2 b2]
  | _ => []

/-- One UYVY quad back to its two RGB pixels. -/
def uyvyToRgbPair : List Int → List Int
  | [u, y1, v, y2] => yuvPixel y1 u v ++ yuvPixel y2 u v
  | _ => []

/-- One UYVY quad to two RGBA pixels: each pixel's three channels followed
by the fixed opaque alpha `0xff`. -/
def uyvyToRgbaPair : List Int → List Int
  | [u, y1, v, y2] => (yuvPixel y1 u v ++ [0xff]) ++ (yuvPixel y2 u v ++ [0xff])
  | _ => []

/-- Modelled from the spec: `rgbtoyuv(height, width, rgb, yuv)` packs an
RGB buffer into UYVY, pair by pair. -/
def rgbtoyuv (_height _width : Nat) (rgb : List Int) : List Int :=
  ((chunksOf 6 rgb).map rgbPairToUyvy).flatten

/-- Modelled from the spec: `yuvtorgb(height, width, yuv, rgb)` expands a
UYVY buffer into RGB triplets. -/
def yuvtorgb (_height _width : Nat) (yuv : List Int) : List Int :=
  ((chunksOf 4 yuv).map uyvyToRgbPair).flatten

/-- Modelled from the spec: `yuvtorgba(height, width, yuv, rgba)` is
`yuvtorgb` with a fourth opaque alpha byte per pixel. -/
def yuvtorgba (_height _width : Nat) (yuv : List Int) : List Int :=
  ((chunksOf 4 yuv).map uyvyToRgbaPair).flatten

/-! ### Pixel-converter lemmas -/

theorem clamp255_of_mem (x : Int) (h0 : 0 ≤ x) (h255 : x ≤ 255) : clamp255 x = x := by
  rw [clamp255, if_neg (by omega), if_neg (by omega)]

theorem lumaByte_range (r g b : Int) (hr : 0 ≤ r ∧ r ≤ 255) (hg : 0 ≤ g ∧ g ≤ 255)
    (hb : 0 ≤ b ∧ b ≤ 255) : 0 ≤ lumaByte r g b ∧ lumaByte r g b ≤ 255 := by
  rw [lumaByte]
  omega

/-- Every chunk of a list whose length is divisible by `L` has length
exactly `L`. -/
theorem length_mem_chunksOfAux (L : Nat) (hL : 1 ≤ L) (fuel : Nat) :
    ∀ xs : List α, xs.length ≤ fuel → L ∣ xs.length →
      ∀ c ∈ chunksOfAux L fuel xs, c.length = L := by
  induction fuel with
  | zero =>
    intro xs hx _ c hc
    have hnil : xs = [] := List.eq_nil_of_length_eq_zero (Nat.le_zero.mp hx)
    subst hnil
    simp [chunksOfAux] at hc
  | succ n ih =>
    intro xs hx hdvd c hc
    cases xs with
    | nil => simp [chunksOfAux] at hc
    | cons x xs =>
      have hge : L ≤ xs.length + 1 := by
        rcases hdvd with ⟨k, hk⟩
        simp only [List.length_cons] at hk
        rcases Nat.eq_zero_or_pos k with rfl | hkpos
        · omega
        · calc L = L * 1 := (Nat.mul_one L).symm
            _ ≤ L * k := Nat.mul_le_mul_left L hkpos
            _ = xs.length + 1 := hk.symm
      simp only [chunksOfAux, List.mem_cons] at hc
      rcases hc with rfl | hc
      · simp only [List.length_cons, List.length_take]
        omega
      · refine ih (xs.drop (L - 1)) ?_ ?_ c hc
        · simp only [List.length_drop]
          simp only [List.length_cons] at hx
          omega
        · rcases hdvd with ⟨k, hk⟩
          simp only [List.length_cons] at hk
          refine ⟨k - 1, ?_⟩
          simp only [List.length_drop]
          have hk1 : 1 ≤ k := by
            rcases Nat.eq_zero_or_pos k with rfl | hkpos
            · omega
            · exact hkpos
          calc xs.length - (L - 1) = xs.length + 1 - L := by omega
            _ = L * k - L := by omega
            _ = L * (k - 1) := by
                rw [Nat.mul_sub, Nat.mul_one]

theorem length_mem_chunksOf (L : Nat) (hL : 1 ≤ L) (xs : List α) (hdvd : L ∣ xs.length) :
    ∀ c ∈ chunksOf L xs, c.length = L :=
  length_mem_chunksOfAux L hL xs.length xs (Nat.le_refl _) hdvd

theorem rgbPairToUyvy_length (c : List Int) (hc : c.length = 6) :
    (rgbPairToUyvy c).length = 4 := by
  rcases c with _ | ⟨a1, _ | ⟨a2, _ | ⟨a3, _ | ⟨a4, _ | ⟨a5, _ | ⟨a6, _ | ⟨a7, t⟩⟩⟩⟩⟩⟩⟩ <;>
    simp_all [rgbPairToUyvy]

/-- The buffer-level round trip acts independently on each horizontal
pixel pair: chroma loss is confined to pairs. -/
theorem roundtrip_pairwise (height width : Nat) (rgb : List Int)
    (hlen : 6 ∣ rgb.length) :
    yuvtorgb height width (rgbtoyuv height width rgb) =
      ((chunksOf 6 rgb).map fun p => uyvyToRgbPair (rgbPairToUyvy p)).flatten := by
  rw [yuvtorgb, rgbtoyuv,
    chunksOf_flatten_of_uniform 4 (by omega) _ (fun b hb => ?_), List.map_map]
  · rfl
  · rw [List.mem_map] at hb
    obtain ⟨c, hc, rfl⟩ := hb
    exact rgbPairToUyvy_length c (length_mem_chunksOf 6 (by omega) rgb hlen c hc)

/-- Alpha positions of one RGBA block: every byte at an index `≡ 3 (mod 4)`
is the fixed opaque value. -/
theorem uyvyToRgbaPair_alpha (q : List Int) :
    (uyvyToRgbaPair q).length % 4 = 0 ∧
      ∀ j (hj : j < (uyvyToRgbaPair q).length), j % 4 = 3 →
        (uyvyToRgbaPair q).get ⟨j, hj⟩ = 255 := by
  rcases q with _ | ⟨u, _ | ⟨y1, _ | ⟨v, _ | ⟨y2, _ | ⟨x, t⟩⟩⟩⟩⟩
  · exact ⟨rfl, fun j hj _ => by simp [uyvyToRgbaPair] at hj⟩
  · exact ⟨rfl, fun j hj _ => by simp [uyvyToRgbaPair] at hj⟩
  · exact ⟨rfl, fun j hj _ => by simp [uyvyToRgbaPair] at hj⟩
  · exact ⟨rfl, fun j hj _ => by simp [uyvyToRgbaPair] at hj⟩
  · refine ⟨by simp [uyvyToRgbaPair, yuvPixel], ?_⟩
    intro j hj hj4
    have hj8 : j < 8 := by simpa [uyvyToRgbaPair, yuvPixel] using hj
    have hj37 : j = 3 ∨ j = 7 := by omega
    rcases hj37 with rfl | rfl <;> rfl
  · exact ⟨rfl, fun j hj _ => by simp [uyvyToRgbaPair] at hj⟩

/-- Indices `≡ 3 (mod 4)` of a flattening of blocks that each have length
`≡ 0 (mod 4)` and opaque bytes at their own `≡ 3 (mod 4)` positions. -/
theorem alpha_flatten (blocks : List (List Int))
    (hb : ∀ b ∈ blocks, b.length % 4 = 0 ∧
      ∀ j (hj : j < b.length), j % 4 = 3 → b.get ⟨j, hj⟩ = 255) :
    ∀ j (hj : j < blocks.flatten.length), j % 4 = 3 →
      blocks.flatten.get ⟨j, hj⟩ = 255 := by
  induction blocks with
  | nil => intro j hj _; simp at hj
  | cons b bs ih =>
    intro j hj hj4
    have hjlen : j < b.length + bs.flatten.length := by
      simpa [List.flatten_cons] using hj
    rcases lt_or_le j b.length with hlt | hge
    · simp only [List.flatten_cons, List.get_eq_getElem]
      rw [List.getElem_append_left hlt]
      exact (hb b (by simp)).2 j hlt hj4
    · simp only [List.flatten_cons, List.get_eq_getElem]
      rw [List.getElem_append_right hge]
      have hmod : (j - b.length) % 4 = 3 := by
        have hb4 := (hb b (by simp)).1
        omega
      have hbound : j - b.length < bs.flatten.length := by omega
      have := ih (fun c hc => hb c (by simp [hc])) (j - b.length) hbound hmod
      simpa [List.get_eq_getElem] using this

/-- If none of the three reconstructed channels saturates, the
reconstructed pixel's luma byte is within ±1 of the luma it was built
from. -/
theorem luma_reconstruction_bound (y u v : Int)
    (hy : 0 ≤ y ∧ y ≤ 255) (hu : 0 ≤ u ∧ u ≤ 255) (hv : 0 ≤ v ∧ v ≤ 255)
    (hR : 0 ≤ y + (359 * (v - 128) + 128) / 256 ∧
      y + (359 * (v - 128) + 128) / 256 ≤ 255)
    (hG : 0 ≤ y + (-88 * (u - 128) - 183 * (v - 128) + 128) / 256 ∧
      y + (-88 * (u - 128) - 183 * (v - 128) + 128) / 256 ≤ 255)
    (hB : 0 ≤ y + (454 * (u - 128) + 128) / 256 ∧
      y + (454 * (u - 128) + 128) / 256 ≤ 255) :
    -1 ≤ lumaByte ((yuvPixel y u v).getD 0 0) ((yuvPixel y u v).getD 1 0)
        ((yuvPixel y u v).getD 2 0) - y ∧
      lumaByte ((yuvPixel y u v).getD 0 0) ((yuvPixel y u v).getD 1 0)
        ((yuvPixel y u v).getD 2 0) - y ≤ 1 := by
  obtain ⟨d1, m1, e1, hm1a, hm1b⟩ :
      ∃ d m, 359 * (v - 128) + 128 = 256 * d + m ∧ 0 ≤ m ∧ m < 256 :=
    ⟨(359 * (v - 128) + 128) / 256, (359 * (v - 128) + 128) % 256,
      (Int.ediv_add_emod _ 256).symm, Int.emod_nonneg _ (by norm_num),
      Int.emod_lt_of_pos _ (by norm_num)⟩
  obtain ⟨d2, m2, e2, hm2a, hm2b⟩ :
      ∃ d m, -88 * (u - 128) - 183 * (v - 128) + 128 = 256 * d + m ∧ 0 ≤ m ∧ m < 256 :=
    ⟨(-88 * (u - 128) - 183 * (v - 128) + 128) / 256,
      (-88 * (u - 128) - 183 * (v - 128) + 128) % 256,
      (Int.ediv_add_emod _ 256).symm, Int.emod_nonneg _ (by norm_num),
      Int.emod_lt_of_pos _ (by norm_num)⟩
  obtain ⟨d3, m3, e3, hm3a, hm3b⟩ :
      ∃ d m, 454 * (u - 128) + 128 = 256 * d + m ∧ 0 ≤ m ∧ m < 256 :=
    ⟨(454 * (u - 128) + 128) / 256, (454 * (u - 128) + 128) % 256,
      (Int.ediv_add_emod _ 256).symm, Int.emod_nonneg _ (by norm_num),
      Int.emod_lt_of_pos _ (by norm_num)⟩
  have hrw1 : (359 * (v - 128) + 128) / 256 = d1 := by omega
  have hrw2 : (-88 * (u - 128) - 183 * (v - 128) + 128) / 256 = d2 := by omega
  have hrw3 : (454 * (u - 128) + 128) / 256 = d3 := by omega
  rw [hrw1] at hR
  rw [hrw2] at hG
  rw [hrw3] at hB
  have h0 : (yuvPixel y u v).getD 0 0 = clamp255 (y + (359 * (v - 128) + 128) / 256) := rfl
  have h1 : (yuvPixel y u v).getD 1 0 =
      clamp255 (y + (-88 * (u - 128) - 183 * (v - 128) + 128) / 256) := rfl
  have h2 : (yuvPixel y u v).getD 2 0 = clamp255 (y + (454 * (u - 128) + 128) / 256) := rfl
  rw [h0, h1, h2, hrw1, hrw2, hrw3, clamp255_of_mem _ hR.1 hR.2,
    clamp255_of_mem _ hG.1 hG.2, clamp255_of_mem _ hB.1 hB.2, lumaByte]
  omega

/-- Counterexample to C3 as stated: for the RGB buffer holding a pure green
pixel next to a black pixel, the round trip `rgbtoyuv` then `yuvtorgb`
raises the black pixel's luma byte from 0 to 31 — far beyond ±1 — because
the averaged chroma drives the reconstruction into the 0 saturation clamp
on the red and blue channels but not on green. -/
theorem claim_C3_counterexample :
    lumaByte ((yuvtorgb 1 2 (rgbtoyuv 1 2 [0, 255, 0, 0, 0, 0])).getD 3 0)
        ((yuvtorgb 1 2 (rgbtoyuv 1 2 [0, 255, 0, 0, 0, 0])).getD 4 0)
        ((yuvtorgb 1 2 (rgbtoyuv 1 2 [0, 255, 0, 0, 0, 0])).getD 5 0) -
      lumaByte 0 0 0 = 31 := by decide

/-- C3 (amended): the `rgbtoyuv`/`yuvtorgb` round trip acts independently
on horizontal chroma pairs; a pixel whose stored luma is `y` and whose
pair chroma is `(u, v)` comes back with its luma byte within ±1 of `y`
whenever none of the three reconstructed channels saturates at 0 or 255
(saturation after chroma pair-averaging can shift luma much further); and
every 4th byte written by `yuvtorgba` is the fixed opaque alpha 255. -/
theorem claim_C3 (height width : Nat) (rgb yuv : List Int) (hlen : 6 ∣ rgb.length)
    (r g b u v y : Int)
    (hr : 0 ≤ r ∧ r ≤ 255) (hg : 0 ≤ g ∧ g ≤ 255) (hb : 0 ≤ b ∧ b ≤ 255)
    (hu : 0 ≤ u ∧ u ≤ 255) (hv : 0 ≤ v ∧ v ≤ 255)
    (hyl : y = lumaByte r g b)
    (hR : 0 ≤ y + (359 * (v - 128) + 128) / 256 ∧
      y + (359 * (v - 128) + 128) / 256 ≤ 255)
    (hG : 0 ≤ y + (-88 * (u - 128) - 183 * (v - 128) + 128) / 256 ∧
      y + (-88 * (u - 128) - 183 * (v - 128) + 128) / 256 ≤ 255)
    (hB : 0 ≤ y + (454 * (u - 128) + 128) / 256 ∧
      y + (454 * (u - 128) + 128) / 256 ≤ 255) :
    yuvtorgb height width (rgbtoyuv height width rgb) =
      ((chunksOf 6 rgb).map fun p => uyvyToRgbPair (rgbPairToUyvy p)).flatten ∧
    (-1 ≤ lumaByte ((yuvPixel y u v).getD 0 0) ((yuvPixel y u v).getD 1 0)
        ((yuvPixel y u v).getD 2 0) - y ∧
      lumaByte ((yuvPixel y u v).getD 0 0) ((yuvPixel y u v).getD 1 0)
        ((yuvPixel y u v).getD 2 0) - y ≤ 1) ∧
    ∀ j (hj : j < (yuvtorgba height width yuv).length), j % 4 = 3 →
      (yuvtorgba height width yuv).get ⟨j, hj⟩ = 255 := by
  refine ⟨roundtrip_pairwise height width rgb hlen, ?_, ?_⟩
  · exact luma_reconstruction_bound y u v (hyl ▸ lumaByte_range r g b hr hg hb)
      hu hv hR hG hB
  · intro j hj hj4
    exact alpha_flatten _ (fun c hc => by
      rw [List.mem_map] at hc
      obtain ⟨q, _, rfl⟩ := hc
      exact uyvyToRgbaPair_alpha q) j hj hj4

/-- Witness for C3 (amended) at a concrete buffer, pixel and chroma. -/
theorem claim_C3_witness :
    yuvtorgb 1 2 (rgbtoyuv 1 2 [10, 20, 30, 40, 50, 60]) =
      ((chunksOf 6 [10, 20, 30, 40, 50, 60]).map fun p =>
        uyvyToRgbPair (rgbPairToUyvy p)).flatten ∧
    (-1 ≤ lumaByte ((yuvPixel 82 128 128).getD 0 0) ((yuvPixel 82 128 128).getD 1 0)
        ((yuvPixel 82 128 128).getD 2 0) - 82 ∧
      lumaByte ((yuvPixel 82 128 128).getD 0 0) ((yuvPixel 82 128 128).getD 1 0)
        ((yuvPixel 82 128 128).getD 2 0) - 82 ≤ 1) ∧
    (yuvtorgba 1 2 [1, 2, 3, 4]).getD 3 0 = 255 := by
  have h := claim_C3 1 2 [10, 20, 30, 40, 50, 60] [1, 2, 3, 4] (by decide)
    100 50 200 128 128 82 (by decide) (by decide) (by decide) (by decide) (by decide)
    (by decide) (by decide) (by decide) (by decide)
  refine ⟨h.1, h.2.1, ?_⟩
  have ha := h.2.2 3 (by decide) (by decide)
  simpa [List.getD_eq_getElem?_getD, List.getElem?_eq_getElem, List.get_eq_getElem] using ha

end RtpStreamModel
